import Mathlib

/-!
Verification of the core state-management patterns of the react-internals
repository, as a shallow embedding in Lean 4.

The embedded code:
* `useEventCallback` (src/components/chapter-10/optimised.tsx, lines 54-68):
  the Latest-Callback Cell — a mutable ref slot plus a stable trigger
  returned by `useCallback` with an empty dependency list.
* `debounce` and `throttle` (src/unnamed/part_012, lines 9-31 / 461-483 and
  485-514) together with the hooks `useDebounce` / `useThrottle`
  (lines 525-582).
* the Keyed Async Request Coordinator variants of
  src/components/chapter-14/index.tsx: `PageWithCleanup` (lines 416-463,
  per-effect `isActive` liveness flag) and `PageWithAbort`
  (lines 469-520, `AbortController` plus an `AbortError`-filtering catch),
  over the fetch capability `simulateFetch` (lines 344-361).

Stateful React code is embedded as explicit state records with a step
function over an event alphabet; render/effect semantics (an effect with
dependency list `[id]` re-runs exactly when `id` changes, its cleanup runs
before the next run or at unmount) are reflected in the step functions.
-/

/-! ## Latest-Callback Cell (`useEventCallback`)

The hook's persistent state between renders is the ref cell `ref` holding
the most recent callback, plus the function object memoized by
`useCallback(..., [])`.  We represent the identity of that function object
by a `Nat` token: `useCallback` with an empty dependency list creates the
function on the first render and returns the very same object on every
later render.  A render cycle with callback `cb` (i) leaves the memoized
trigger untouched and (ii) ends with the effect `ref.current = callback`
writing `cb` into the slot. -/

structure EventCell (α β : Type) where
  triggerId : Nat
  slot : α → β

variable {α β : Type}

/-- Render cycle of `useEventCallback` (chapter-10/optimised.tsx 54-68).
On the first render (`prev = none`) `useCallback` allocates a fresh
function object (identity `freshId`); on every later render the empty
dependency list makes `useCallback` return the memoized object, whatever
fresh identity the runtime could have offered.  In both cases the effect
stores `cb` into the ref slot. -/
def renderEventCell (prev : Option (EventCell α β)) (cb : α → β)
    (freshId : Nat) : EventCell α β :=
  match prev with
  | none => ⟨freshId, cb⟩
  | some s => ⟨s.triggerId, cb⟩

/-- Fold a whole sequence of update cycles (callback, fresh identity offered
by the runtime at that cycle) over the cell. -/
def renderMany (s : EventCell α β) (cycles : List ((α → β) × Nat)) :
    EventCell α β :=
  cycles.foldl (fun st c => renderEventCell (some st) c.1 c.2) s

/-- Trigger of the cell: the stable function returned by `useCallback`
reads `ref.current` at invocation time and returns its result
(chapter-10/optimised.tsx 65-67). -/
def EventCell.trigger (s : EventCell α β) (a : α) : β := s.slot a

/-- Teardown of the owning scope.  The effect in `useEventCallback`
(chapter-10/optimised.tsx 60-62) registers no cleanup, and the hook keeps
no liveness flag, so unmounting changes nothing that the trigger reads:
the cell is untouched. -/
def tearDownCell (s : EventCell α β) : EventCell α β := s

/-! ## Debounce (src/unnamed/part_012, lines 9-31 and 461-483)

`debounce(callback, wait)` keeps one `timeoutId`.  Every call clears a
pending timer and arms a fresh one `wait` ms in the future, capturing the
call's arguments; when a timer is still pending at the time of the next
call it is cancelled, otherwise it has already fired, invoking `callback`
with the captured arguments at its due time.

We process the calls in time order.  The state is the pending timer
`Option (due time × captured args)`; the run returns the final state plus
the list of invocations `(fire time, args)` performed along the way. -/

/-- Process a list of timed calls of the debounced function, starting from
pending-timer state `s`.  Before each call, a pending timer whose due time
has passed fires; the call itself clears any still-pending timer and arms
a new one (part_012 lines 15-22). -/
def debounceCalls (wait : Nat) :
    Option (Nat × α) → List (Nat × α) → Option (Nat × α) × List (Nat × α)
  | s, [] => (s, [])
  | s, c :: cs =>
    match s with
    | some (due, a) =>
      if due ≤ c.1 then
        let r := debounceCalls wait (some (c.1 + wait, c.2)) cs
        (r.1, (due, a) :: r.2)
      else
        debounceCalls wait (some (c.1 + wait, c.2)) cs
    | none => debounceCalls wait (some (c.1 + wait, c.2)) cs

/-- Complete run of the debounced function on a list of timed calls: start
with no pending timer, process every call, then let a timer still pending
at the end fire at its due time. -/
def debounceInvocations (wait : Nat) (calls : List (Nat × α)) :
    List (Nat × α) :=
  let r := debounceCalls wait none calls
  r.2 ++ (match r.1 with
  | some (due, a) => [(due, a)]
  | none => [])

/-- Every element of the list of timed calls happens strictly less than
`wait` after the previous one (the first one strictly less than `wait`
after time `t`). -/
def closeChain (wait : Nat) : Nat → List (Nat × α) → Prop
  | _, [] => True
  | t, c :: cs => c.1 < t + wait ∧ closeChain wait c.1 cs

/-! ## Throttle (src/unnamed/part_012, lines 485-514)

State: `lastTime` (last leading/trailing fire) and at most one pending
trailing timer.  A call at `now`: if `now - lastTime >= wait` the callback
fires immediately and `lastTime := now`; otherwise, if no timer is
pending, one is armed for `wait - (now - lastTime)` ms later capturing the
call's arguments; otherwise the call is dropped.  When the trailing timer
fires it sets `lastTime` to the fire time, clears itself and invokes the
callback with the captured arguments. -/

structure ThrottleState (α : Type) where
  lastTime : Nat
  pendingTimer : Option (Nat × α)

/-- Fire the pending trailing timer if its due time has been reached by
time `t` (part_012 lines 499-504): `lastTime` becomes the fire time, the
timer slot clears, and the invocation is recorded. -/
def throttleFlush (s : ThrottleState α) (t : Nat) :
    ThrottleState α × List (Nat × α) :=
  match s.pendingTimer with
  | some (due, a) => if due ≤ t then (⟨due, none⟩, [(due, a)]) else (s, [])
  | none => (s, [])

/-- One call of the throttled function at time `t` with arguments `a`
(part_012 lines 492-505), after letting an elapsed trailing timer fire. -/
def throttleCall (wait : Nat) (s : ThrottleState α) (t : Nat) (a : α) :
    ThrottleState α × List (Nat × α) :=
  let f := throttleFlush s t
  if wait ≤ t - f.1.lastTime then
    (⟨t, f.1.pendingTimer⟩, f.2 ++ [(t, a)])
  else
    match f.1.pendingTimer with
    | none =>
      (⟨f.1.lastTime, some (t + (wait - (t - f.1.lastTime)), a)⟩, f.2)
    | some _ => (f.1, f.2)

/-- Process a list of timed calls of the throttled function. -/
def throttleRun (wait : Nat) :
    ThrottleState α → List (Nat × α) → ThrottleState α × List (Nat × α)
  | s, [] => (s, [])
  | s, c :: cs =>
    let r := throttleCall wait s c.1 c.2
    let r2 := throttleRun wait r.1 cs
    (r2.1, r.2 ++ r2.2)

/-- Complete run of a freshly created throttled function (`lastTime = 0`,
no pending timer, part_012 lines 489-490) on a list of timed calls,
letting a timer still pending at the end fire at its due time. -/
def throttleInvocations (wait : Nat) (calls : List (Nat × α)) :
    List (Nat × α) :=
  let r := throttleRun wait ⟨0, none⟩ calls
  r.2 ++ (match r.1.pendingTimer with
  | some (due, a) => [(due, a)]
  | none => [])

/-! ### Helper lemmas for debounce and throttle -/

/-- During a burst of calls each arriving strictly before the pending
timer's due time, every timer is cancelled before firing, so no invocation
happens and the final pending timer belongs to the last call. -/
theorem debounceCalls_burst (wait t : Nat) (a : α) (cs : List (Nat × α))
    (h : closeChain wait t cs) :
    debounceCalls wait (some (t + wait, a)) cs =
      (some ((cs.getLastD (t, a)).1 + wait, (cs.getLastD (t, a)).2), []) := by
  induction cs generalizing t a with
  | nil => simp [debounceCalls]
  | cons c cs ih =>
    obtain ⟨h1, h2⟩ := h
    have hlt : ¬ t + wait ≤ c.1 := by omega
    simp only [debounceCalls, hlt, if_false, List.getLastD_cons]
    exact ih c.1 c.2 h2

/-- While a trailing timer armed at `lastTime = t0` with due time
`t0 + wait` is pending, every further call arriving strictly before
`t0 + wait` is dropped: neither the state nor the invocation list
changes. -/
theorem throttleRun_drop (wait t0 : Nat) (a1 : α) (rest : List (Nat × α))
    (hw : 0 < wait) (hrest : ∀ c ∈ rest, c.1 < t0 + wait) :
    throttleRun wait ⟨t0, some (t0 + wait, a1)⟩ rest =
      (⟨t0, some (t0 + wait, a1)⟩, []) := by
  induction rest with
  | nil => simp [throttleRun]
  | cons c cs ih =>
    have hc : c.1 < t0 + wait := hrest c (List.mem_cons_self c cs)
    have hdue : ¬ t0 + wait ≤ c.1 := by omega
    have hlead : ¬ wait ≤ c.1 - t0 := by omega
    simp only [throttleRun, throttleCall, throttleFlush, hdue, if_false,
      hlead, ih (fun d hd => hrest d (List.mem_cons_of_mem c hd))]
    rfl

/-! ## Keyed Async Request Coordinator

### Shared vocabulary

The fetch capability `simulateFetch` (chapter-14/index.tsx 344-361)
resolves, after a delay, with the `issuesData` record of the requested id
(or `undefined` for an unknown id, embedded as `Option`). -/

structure FetchResult where
  id : String
  title : String
  description : String
deriving DecidableEq, Repr

/-- Lookup table `issuesData` (chapter-14/index.tsx 325-341); the value the
fetch capability resolves with for a given request key. -/
def issuesData (key : String) : Option FetchResult :=
  if key = "1" then
    some ⟨"ISSUE-1", "Login Bug", "Users cannot login with special characters"⟩
  else if key = "2" then
    some ⟨"ISSUE-2", "Dashboard Crash", "Dashboard crashes on mobile devices"⟩
  else if key = "3" then
    some ⟨"ISSUE-3", "Payment Failed", "Payment processing times out randomly"⟩
  else none

/-- Record of one commit to visible state: which request committed
(its sequence number and key) and which key was active at that moment. -/
structure Commit where
  reqSeq : Nat
  reqKey : String
  activeKey : String
deriving DecidableEq, Repr

/-! ### `PageWithCleanup` (chapter-14/index.tsx 416-463)

Each effect run gets its own closure-captured boolean `isActive`,
initially `true`; the run's cleanup sets it to `false` and runs before the
next effect run (when `id` changes) and at unmount.  The resolution
handler commits `setData(result); setLoading(false)` only if its own
`isActive` is still `true`.

Embedding: a request per effect run, identified by a sequence number (the
number of effect runs so far), each carrying its own `isActive` flag; the
component state tracks the current id prop, the run counter, the visible
`data`/`loading` fields and whether the component is still mounted.  The
commit log and the fetch counter are observation instrumentation. -/

structure Req where
  seq : Nat
  key : String
  isActive : Bool
deriving DecidableEq, Repr

structure CleanupState where
  key : String
  seq : Nat
  data : Option FetchResult
  loading : Bool
  mounted : Bool
  pending : List Req
  commits : List Commit
  fetchCount : Nat
deriving DecidableEq, Repr

/-- Events a `PageWithCleanup` instance reacts to: the id prop changes
(`setKey`), a previously issued fetch resolves (`resolve q` names the
request by its sequence number), or the component unmounts. -/
inductive Ev where
  | setKey : String → Ev
  | resolve : Nat → Ev
  | teardown : Ev
deriving DecidableEq, Repr

/-- Run the cleanup of every outstanding effect closure: each captured
`isActive` becomes `false` (chapter-14/index.tsx 434-436).  Only the most
recent run's flag can still be `true`, so this is the effect of that
cleanup. -/
def deactivate (rs : List Req) : List Req :=
  rs.map fun r => ⟨r.seq, r.key, false⟩

def findReq (rs : List Req) (q : Nat) : Option Req :=
  rs.find? fun r => r.seq == q

def removeReq (rs : List Req) (q : Nat) : List Req :=
  rs.filter fun r => r.seq != q

/-- Mounting `PageWithCleanup` with initial id `k`: state starts as
`data = null`, `loading = true` (lines 417-418) and the first effect run
sets `loading`, issues the fetch for `k` and registers its live
`isActive` flag (lines 420-431). -/
def mountWith (k : String) : CleanupState :=
  ⟨k, 1, none, true, true, [⟨1, k, true⟩], [], 1⟩

/-- Step function of `PageWithCleanup`.
`setKey k`: the effect has dependency list `[id]`, so nothing happens
unless the component is mounted and `k` differs from the current id; on a
real change the previous run's cleanup flips its flag, then the new run
sets `loading`, issues one fetch and registers a fresh live request.
`resolve q`: the resolution handler of request `q` runs; it commits the
fetched record if and only if its own `isActive` flag is still true
(lines 425-431), otherwise it touches nothing.
`teardown`: the cleanup of the current effect runs and the component
unmounts; every flag is now `false`. -/
def applyEv (s : CleanupState) : Ev → CleanupState
  | .setKey k =>
    if s.mounted && !(k == s.key) then
      ⟨k, s.seq + 1, s.data, true, true,
        ⟨s.seq + 1, k, true⟩ :: deactivate s.pending,
        s.commits, s.fetchCount + 1⟩
    else s
  | .resolve q =>
    match findReq s.pending q with
    | none => s
    | some r =>
      if r.isActive then
        ⟨s.key, s.seq, issuesData r.key, false, s.mounted,
          removeReq s.pending q,
          s.commits ++ [⟨r.seq, r.key, s.key⟩], s.fetchCount⟩
      else
        ⟨s.key, s.seq, s.data, s.loading, s.mounted,
          removeReq s.pending q, s.commits, s.fetchCount⟩
  | .teardown =>
    ⟨s.key, s.seq, s.data, s.loading, false, deactivate s.pending,
      s.commits, s.fetchCount⟩

def runEvs (s : CleanupState) (evs : List Ev) : CleanupState :=
  evs.foldl applyEv s

/-- Invariant of reachable `PageWithCleanup` states:
a request's liveness flag is true exactly when it is the most recent
effect run of a still-mounted component; the most recent request carries
the current id; no pending sequence number exceeds the run counter; and
every recorded commit happened for the key active at commit time. -/
def CleanupInv (s : CleanupState) : Prop :=
  (∀ r ∈ s.pending, r.isActive = (decide (r.seq = s.seq) && s.mounted))
  ∧ (∀ r ∈ s.pending, r.seq = s.seq → r.key = s.key)
  ∧ (∀ r ∈ s.pending, r.seq ≤ s.seq)
  ∧ (∀ c ∈ s.commits, c.reqKey = c.activeKey)

theorem cleanupInv_mount (k : String) : CleanupInv (mountWith k) := by
  refine ⟨?_, ?_, ?_, ?_⟩ <;> simp [mountWith]

theorem cleanupInv_step (s : CleanupState) (e : Ev) (h : CleanupInv s) :
    CleanupInv (applyEv s e) := by
  obtain ⟨h1, h2, h3, h4⟩ := h
  cases e with
  | setKey k =>
    simp only [applyEv]
    by_cases hc : s.mounted = true ∧ ¬ k = s.key
    · rw [if_pos (by simp [hc.1, hc.2])]
      refine ⟨?_, ?_, ?_, h4⟩
      · intro r hr
        rcases List.mem_cons.mp hr with hr | hr
        · subst hr; simp
        · simp only [deactivate, List.mem_map] at hr
          obtain ⟨r0, hr0, hr0e⟩ := hr
          subst hr0e
          have := h3 r0 hr0
          simp only []
          have : ¬ r0.seq = s.seq + 1 := by omega
          simp [this]
      · intro r hr
        rcases List.mem_cons.mp hr with hr | hr
        · subst hr; simp
        · simp only [deactivate, List.mem_map] at hr
          obtain ⟨r0, hr0, hr0e⟩ := hr
          subst hr0e
          have := h3 r0 hr0
          intro habs
          simp only [] at habs
          omega
      · intro r hr
        rcases List.mem_cons.mp hr with hr | hr
        · subst hr; simp
        · simp only [deactivate, List.mem_map] at hr
          obtain ⟨r0, hr0, hr0e⟩ := hr
          subst hr0e
          have := h3 r0 hr0
          simp only []
          omega
    · rw [if_neg (by intro habs; simp at habs; exact hc ⟨habs.1, habs.2⟩)]
      exact ⟨h1, h2, h3, h4⟩
  | resolve q =>
    simp only [applyEv]
    cases hf : findReq s.pending q with
    | none => exact ⟨h1, h2, h3, h4⟩
    | some r =>
      have hrmem : r ∈ s.pending := List.mem_of_find?_eq_some hf
      have hsub : ∀ r0 ∈ removeReq s.pending q, r0 ∈ s.pending := by
        intro r0 hr0
        exact List.mem_of_mem_filter hr0
      dsimp only
      by_cases hact : r.isActive = true
      · rw [if_pos hact]
        refine ⟨fun r0 hr0 => h1 r0 (hsub r0 hr0),
          fun r0 hr0 => h2 r0 (hsub r0 hr0),
          fun r0 hr0 => h3 r0 (hsub r0 hr0), ?_⟩
        intro c hc
        rcases List.mem_append.mp hc with hc | hc
        · exact h4 c hc
        · have hc1 : c = ⟨r.seq, r.key, s.key⟩ := by
            simpa using hc
          subst hc1
          have := h1 r hrmem
          rw [hact] at this
          have hseq : r.seq = s.seq := by
            by_contra habs
            simp [habs] at this
          exact h2 r hrmem hseq
      · rw [if_neg hact]
        exact ⟨fun r0 hr0 => h1 r0 (hsub r0 hr0),
          fun r0 hr0 => h2 r0 (hsub r0 hr0),
          fun r0 hr0 => h3 r0 (hsub r0 hr0), h4⟩
  | teardown =>
    refine ⟨?_, ?_, ?_, h4⟩
    · intro r hr
      simp only [applyEv, deactivate, List.mem_map] at hr
      obtain ⟨r0, hr0, hr0e⟩ := hr
      subst hr0e
      simp [applyEv]
    · intro r hr
      simp only [applyEv, deactivate, List.mem_map] at hr
      obtain ⟨r0, hr0, hr0e⟩ := hr
      subst hr0e
      exact fun hs => h2 r0 hr0 hs
    · intro r hr
      simp only [applyEv, deactivate, List.mem_map] at hr
      obtain ⟨r0, hr0, hr0e⟩ := hr
      subst hr0e
      exact h3 r0 hr0

theorem cleanupInv_run (s : CleanupState) (evs : List Ev)
    (h : CleanupInv s) : CleanupInv (runEvs s evs) := by
  induction evs generalizing s with
  | nil => exact h
  | cons e es ih => exact ih (applyEv s e) (cleanupInv_step s e h)

theorem cleanupInv_reachable (k : String) (evs : List Ev) :
    CleanupInv (runEvs (mountWith k) evs) :=
  cleanupInv_run (mountWith k) evs (cleanupInv_mount k)

/-! ### `PageWithAbort` (chapter-14/index.tsx 469-520)

Each effect run creates its own `AbortController` and passes its signal to
`simulateFetch`; the run's cleanup calls `controller.abort()`, which
clears the fetch's timer and rejects the promise with an `AbortError`
(lines 350-360).  The then-handler commits unconditionally — in this
variant only the abort prevents a stale commit.  The catch-handler
ignores rejections named `AbortError` and reports any other rejection
with `console.error` (lines 483-488); it never touches `data` or
`loading`.

Embedding: requests carry an `aborted` flag (the state of their
controller).  Events: the id prop changes, a fetch settles successfully
(`resolve`), the fetch capability rejects with an error of a given name
(`fail`; `simulateFetch` itself only rejects on abort, but the external
fetch capability may reject for a genuine reason), or the component
unmounts.  The `errors` list records the `console.error` reports. -/

structure AReq where
  seq : Nat
  key : String
  aborted : Bool
deriving DecidableEq, Repr

structure AbortState where
  key : String
  seq : Nat
  data : Option FetchResult
  loading : Bool
  mounted : Bool
  pending : List AReq
  commits : List Commit
  errors : List String
  fetchCount : Nat
deriving DecidableEq, Repr

inductive AEv where
  | setKey : String → AEv
  | resolve : Nat → AEv
  | fail : Nat → String → AEv
  | teardown : AEv
deriving DecidableEq, Repr

/-- Abort the controller of the request issued by effect run `q`
(chapter-14/index.tsx 491-493: the cleanup aborts its own run's
controller). -/
def abortCurrent (rs : List AReq) (q : Nat) : List AReq :=
  rs.map fun r => if r.seq == q then ⟨r.seq, r.key, true⟩ else r

def findAReq (rs : List AReq) (q : Nat) : Option AReq :=
  rs.find? fun r => r.seq == q

def removeAReq (rs : List AReq) (q : Nat) : List AReq :=
  rs.filter fun r => r.seq != q

/-- Mounting `PageWithAbort` with initial id `k`: `data = null`,
`loading = true`, first effect run creates a live controller and issues
the fetch (lines 470-478). -/
def mountA (k : String) : AbortState :=
  ⟨k, 1, none, true, true, [⟨1, k, false⟩], [], [], 1⟩

/-- Step function of `PageWithAbort`.
`setKey k`: on a real id change the previous run's cleanup aborts its
controller, then the new run sets `loading` and issues one fetch with a
fresh controller.
`resolve q`: the fetch of request `q` settles.  If its controller was
aborted, the promise instead rejected with `AbortError`, which the catch
filters out silently; otherwise the then-handler commits unconditionally
(lines 478-482).
`fail q err`: the fetch capability rejects with an error named `err`; the
catch reports it via `console.error` unless it is an `AbortError`
(lines 483-488); visible state is untouched either way.
`teardown`: the current run's cleanup aborts its controller and the
component unmounts. -/
def applyA (s : AbortState) : AEv → AbortState
  | .setKey k =>
    if s.mounted && !(k == s.key) then
      ⟨k, s.seq + 1, s.data, true, true,
        ⟨s.seq + 1, k, false⟩ :: abortCurrent s.pending s.seq,
        s.commits, s.errors, s.fetchCount + 1⟩
    else s
  | .resolve q =>
    match findAReq s.pending q with
    | none => s
    | some r =>
      if r.aborted then
        ⟨s.key, s.seq, s.data, s.loading, s.mounted,
          removeAReq s.pending q, s.commits, s.errors, s.fetchCount⟩
      else
        ⟨s.key, s.seq, issuesData r.key, false, s.mounted,
          removeAReq s.pending q,
          s.commits ++ [⟨r.seq, r.key, s.key⟩], s.errors, s.fetchCount⟩
  | .fail q err =>
    match findAReq s.pending q with
    | none => s
    | some r =>
      if r.aborted || err == "AbortError" then
        ⟨s.key, s.seq, s.data, s.loading, s.mounted,
          removeAReq s.pending q, s.commits, s.errors, s.fetchCount⟩
      else
        ⟨s.key, s.seq, s.data, s.loading, s.mounted,
          removeAReq s.pending q, s.commits,
          s.errors ++ ["Fetch error: " ++ err], s.fetchCount⟩
  | .teardown =>
    ⟨s.key, s.seq, s.data, s.loading, false,
      abortCurrent s.pending s.seq, s.commits, s.errors, s.fetchCount⟩

def runA (s : AbortState) (evs : List AEv) : AbortState :=
  evs.foldl applyA s

/-- Invariant of reachable `PageWithAbort` states: a request's controller
is aborted exactly when the request is no longer the most recent effect
run of a still-mounted component, and no pending sequence number exceeds
the run counter. -/
def AbortInv (s : AbortState) : Prop :=
  (∀ r ∈ s.pending, r.aborted = !(decide (r.seq = s.seq) && s.mounted))
  ∧ (∀ r ∈ s.pending, r.seq ≤ s.seq)

theorem abortInv_mount (k : String) : AbortInv (mountA k) := by
  constructor <;> simp [mountA]

theorem abortInv_step (s : AbortState) (e : AEv) (h : AbortInv s) :
    AbortInv (applyA s e) := by
  obtain ⟨h1, h2⟩ := h
  cases e with
  | setKey k =>
    simp only [applyA]
    by_cases hc : s.mounted = true ∧ ¬ k = s.key
    · rw [if_pos (by simp [hc.1, hc.2])]
      constructor
      · intro r hr
        rcases List.mem_cons.mp hr with hr | hr
        · subst hr; simp
        · simp only [abortCurrent, List.mem_map] at hr
          obtain ⟨r0, hr0, hr0e⟩ := hr
          have hle := h2 r0 hr0
          by_cases hq : r0.seq = s.seq
          · rw [if_pos (by simp [hq])] at hr0e
            subst hr0e
            show true = !(decide (r0.seq = s.seq + 1) && true)
            have hne : ¬ r0.seq = s.seq + 1 := by omega
            simp [hne]
          · rw [if_neg (by simp [hq])] at hr0e
            subst hr0e
            have hab := h1 r0 hr0
            have hne : ¬ r0.seq = s.seq + 1 := by omega
            show r0.aborted = !(decide (r0.seq = s.seq + 1) && true)
            rw [hab, hc.1]
            simp [hq, hne]
      · intro r hr
        rcases List.mem_cons.mp hr with hr | hr
        · subst hr; simp
        · simp only [abortCurrent, List.mem_map] at hr
          obtain ⟨r0, hr0, hr0e⟩ := hr
          have hle := h2 r0 hr0
          by_cases hq : r0.seq = s.seq
          · rw [if_pos (by simp [hq])] at hr0e
            subst hr0e
            show r0.seq ≤ s.seq + 1
            omega
          · rw [if_neg (by simp [hq])] at hr0e
            subst hr0e
            show r0.seq ≤ s.seq + 1
            omega
    · rw [if_neg (by intro habs; simp at habs; exact hc ⟨habs.1, habs.2⟩)]
      exact ⟨h1, h2⟩
  | resolve q =>
    simp only [applyA]
    cases hf : findAReq s.pending q with
    | none => exact ⟨h1, h2⟩
    | some r =>
      have hsub : ∀ r0 ∈ removeAReq s.pending q, r0 ∈ s.pending :=
        fun r0 hr0 => List.mem_of_mem_filter hr0
      dsimp only
      by_cases hab : r.aborted = true
      · rw [if_pos hab]
        exact ⟨fun r0 hr0 => h1 r0 (hsub r0 hr0),
          fun r0 hr0 => h2 r0 (hsub r0 hr0)⟩
      · rw [if_neg hab]
        exact ⟨fun r0 hr0 => h1 r0 (hsub r0 hr0),
          fun r0 hr0 => h2 r0 (hsub r0 hr0)⟩
  | fail q err =>
    simp only [applyA]
    cases hf : findAReq s.pending q with
    | none => exact ⟨h1, h2⟩
    | some r =>
      have hsub : ∀ r0 ∈ removeAReq s.pending q, r0 ∈ s.pending :=
        fun r0 hr0 => List.mem_of_mem_filter hr0
      dsimp only
      by_cases hab : (r.aborted || err == "AbortError") = true
      · rw [if_pos hab]
        exact ⟨fun r0 hr0 => h1 r0 (hsub r0 hr0),
          fun r0 hr0 => h2 r0 (hsub r0 hr0)⟩
      · rw [if_neg hab]
        exact ⟨fun r0 hr0 => h1 r0 (hsub r0 hr0),
          fun r0 hr0 => h2 r0 (hsub r0 hr0)⟩
  | teardown =>
    constructor
    · intro r hr
      simp only [applyA, abortCurrent, List.mem_map] at hr
      obtain ⟨r0, hr0, hr0e⟩ := hr
      by_cases hq : r0.seq = s.seq
      · rw [if_pos (by simp [hq])] at hr0e
        subst hr0e
        simp [applyA]
      · rw [if_neg (by simp [hq])] at hr0e
        subst hr0e
        have hab := h1 r0 hr0
        simp only [applyA]
        rw [hab]
        simp [hq]
    · intro r hr
      simp only [applyA, abortCurrent, List.mem_map] at hr
      obtain ⟨r0, hr0, hr0e⟩ := hr
      have hle := h2 r0 hr0
      by_cases hq : r0.seq = s.seq
      · rw [if_pos (by simp [hq])] at hr0e
        subst hr0e
        simpa [applyA] using hle
      · rw [if_neg (by simp [hq])] at hr0e
        subst hr0e
        simpa [applyA] using hle

theorem abortInv_run (s : AbortState) (evs : List AEv)
    (h : AbortInv s) : AbortInv (runA s evs) := by
  induction evs generalizing s with
  | nil => exact h
  | cons e es ih => exact ih (applyA s e) (abortInv_step s e h)

theorem abortInv_reachable (k : String) (evs : List AEv) :
    AbortInv (runA (mountA k) evs) :=
  abortInv_run (mountA k) evs (abortInv_mount k)

/-! ### After teardown, both coordinator variants are inert -/

/-- A torn-down `PageWithCleanup`: unmounted, with every effect closure's
`isActive` flag flipped to `false`. -/
def CleanupDead (s : CleanupState) : Prop :=
  s.mounted = false ∧ ∀ r ∈ s.pending, r.isActive = false

theorem cleanupDead_teardown (s : CleanupState) :
    CleanupDead (applyEv s .teardown) := by
  constructor
  · rfl
  · intro r hr
    simp only [applyEv, deactivate, List.mem_map] at hr
    obtain ⟨r0, _, hr0e⟩ := hr
    subst hr0e
    rfl

theorem cleanupDead_step (s : CleanupState) (e : Ev) (h : CleanupDead s) :
    CleanupDead (applyEv s e) ∧ (applyEv s e).data = s.data
      ∧ (applyEv s e).loading = s.loading
      ∧ (applyEv s e).commits = s.commits := by
  obtain ⟨hm, hp⟩ := h
  cases e with
  | setKey k =>
    have he : applyEv s (.setKey k) = s := by
      simp [applyEv, hm]
    rw [he]
    exact ⟨⟨hm, hp⟩, rfl, rfl, rfl⟩
  | resolve q =>
    simp only [applyEv]
    cases hf : findReq s.pending q with
    | none => exact ⟨⟨hm, hp⟩, rfl, rfl, rfl⟩
    | some r =>
      have hact : r.isActive = false := hp r (List.mem_of_find?_eq_some hf)
      dsimp only
      rw [if_neg (by simp [hact])]
      exact ⟨⟨hm, fun r0 hr0 => hp r0 (List.mem_of_mem_filter hr0)⟩,
        rfl, rfl, rfl⟩
  | teardown =>
    exact ⟨cleanupDead_teardown s, rfl, rfl, rfl⟩

theorem cleanupDead_run (s : CleanupState) (evs : List Ev)
    (h : CleanupDead s) :
    (runEvs s evs).data = s.data ∧ (runEvs s evs).loading = s.loading
      ∧ (runEvs s evs).commits = s.commits := by
  induction evs generalizing s with
  | nil => exact ⟨rfl, rfl, rfl⟩
  | cons e es ih =>
    obtain ⟨hd, d2, d3, d4⟩ := cleanupDead_step s e h
    obtain ⟨i2, i3, i4⟩ := ih (applyEv s e) hd
    exact ⟨i2.trans d2, i3.trans d3, i4.trans d4⟩

/-- A torn-down `PageWithAbort`: unmounted, with every request's
controller aborted. -/
def AbortDead (s : AbortState) : Prop :=
  s.mounted = false ∧ ∀ r ∈ s.pending, r.aborted = true

theorem abortDead_teardown (s : AbortState) (h : AbortInv s) :
    AbortDead (applyA s .teardown) := by
  constructor
  · rfl
  · intro r hr
    simp only [applyA, abortCurrent, List.mem_map] at hr
    obtain ⟨r0, hr0, hr0e⟩ := hr
    by_cases hq : r0.seq = s.seq
    · rw [if_pos (by simp [hq])] at hr0e
      subst hr0e
      rfl
    · rw [if_neg (by simp [hq])] at hr0e
      subst hr0e
      have := h.1 r0 hr0
      rw [this]
      simp [hq]

theorem abortDead_step (s : AbortState) (e : AEv) (h : AbortDead s) :
    AbortDead (applyA s e) ∧ (applyA s e).data = s.data
      ∧ (applyA s e).loading = s.loading
      ∧ (applyA s e).commits = s.commits := by
  obtain ⟨hm, hp⟩ := h
  cases e with
  | setKey k =>
    have he : applyA s (.setKey k) = s := by
      simp [applyA, hm]
    rw [he]
    exact ⟨⟨hm, hp⟩, rfl, rfl, rfl⟩
  | resolve q =>
    simp only [applyA]
    cases hf : findAReq s.pending q with
    | none => exact ⟨⟨hm, hp⟩, rfl, rfl, rfl⟩
    | some r =>
      have hab : r.aborted = true := hp r (List.mem_of_find?_eq_some hf)
      dsimp only
      rw [if_pos hab]
      exact ⟨⟨hm, fun r0 hr0 => hp r0 (List.mem_of_mem_filter hr0)⟩,
        rfl, rfl, rfl⟩
  | fail q err =>
    simp only [applyA]
    cases hf : findAReq s.pending q with
    | none => exact ⟨⟨hm, hp⟩, rfl, rfl, rfl⟩
    | some r =>
      have hab : r.aborted = true := hp r (List.mem_of_find?_eq_some hf)
      dsimp only
      rw [if_pos (by simp [hab])]
      exact ⟨⟨hm, fun r0 hr0 => hp r0 (List.mem_of_mem_filter hr0)⟩,
        rfl, rfl, rfl⟩
  | teardown =>
    refine ⟨⟨rfl, ?_⟩, rfl, rfl, rfl⟩
    intro r hr
    simp only [applyA, abortCurrent, List.mem_map] at hr
    obtain ⟨r0, hr0, hr0e⟩ := hr
    by_cases hq : r0.seq = s.seq
    · rw [if_pos (by simp [hq])] at hr0e
      subst hr0e
      rfl
    · rw [if_neg (by simp [hq])] at hr0e
      subst hr0e
      exact hp r0 hr0

theorem abortDead_run (s : AbortState) (evs : List AEv)
    (h : AbortDead s) :
    (runA s evs).data = s.data ∧ (runA s evs).loading = s.loading
      ∧ (runA s evs).commits = s.commits := by
  induction evs generalizing s with
  | nil => exact ⟨rfl, rfl, rfl⟩
  | cons e es ih =>
    obtain ⟨hd, d2, d3, d4⟩ := abortDead_step s e h
    obtain ⟨i2, i3, i4⟩ := ih (applyA s e) hd
    exact ⟨i2.trans d2, i3.trans d3, i4.trans d4⟩

/-! ## Claims about the Latest-Callback Cell -/

/-- Claim C3: for every sequence of register calls on a Latest-Callback
Cell — one per render/update cycle, with arbitrary callbacks and whatever
fresh function identities the runtime could offer at each cycle — the
trigger handed to the caller keeps the identity created on the first
cycle: it is reference-identical across the entire lifetime of the owning
scope. -/
theorem C3_trigger_identity_stable (cb0 : α → β) (freshId : Nat)
    (cycles : List ((α → β) × Nat)) :
    (renderMany (renderEventCell none cb0 freshId) cycles).triggerId
      = freshId := by
  have key : ∀ (s : EventCell α β) (cs : List ((α → β) × Nat)),
      (renderMany s cs).triggerId = s.triggerId := by
    intro s cs
    induction cs generalizing s with
    | nil => rfl
    | cons c cs ih => exact ih (renderEventCell (some s) c.1 c.2)
  exact key (renderEventCell none cb0 freshId) cycles

/-- Claim C4: after registering `cb1` and then `cb2` on a Latest-Callback
Cell, calling the trigger with `a` executes `cb2` — the most recently
registered callback — with `a`, and returns its result. -/
theorem C4_trigger_invokes_latest (s : EventCell α β) (cb1 cb2 : α → β)
    (n1 n2 : Nat) (a : α) :
    (renderEventCell (some (renderEventCell (some s) cb1 n1)) cb2 n2).trigger
        a = cb2 a := rfl

/-- Claim C10 is false on the code: `useEventCallback` keeps no liveness
flag and its effect registers no cleanup, so tearing down the owning
scope leaves the cell bit-for-bit unchanged, and a trigger call after
teardown still invokes the last registered callback (here the successor
function, invoked at 5 and returning its result 6) instead of being a
no-op. -/
theorem C10_counterexample :
    tearDownCell
        (renderEventCell (some (renderEventCell none (fun n : Nat => n) 0))
          (fun n => n + 1) 1)
      = renderEventCell (some (renderEventCell none (fun n : Nat => n) 0))
          (fun n => n + 1) 1
    ∧ (tearDownCell
        (renderEventCell (some (renderEventCell none (fun n : Nat => n) 0))
          (fun n => n + 1) 1)).trigger 5 = 6 :=
  ⟨rfl, rfl⟩

/-- Claim C10 amended: calling the trigger of a Latest-Callback Cell
after its owning scope has been torn down raises no error but is not a
no-op either — there is no liveness guard in the source, so the trigger
invokes the most recently registered callback with the given arguments
and returns its result, exactly as before teardown. -/
theorem C10_trigger_after_teardown (s : EventCell α β) (cb : α → β)
    (n : Nat) (a : α) :
    (tearDownCell (renderEventCell (some s) cb n)).trigger a = cb a := rfl

/-! ## Claims about debounce and throttle -/

/-- Claim C5: for N >= 1 calls of a debounced trigger in which each
consecutive pair is separated by strictly less than the delay, the
wrapped callback is invoked exactly once, `wait` after the last call,
with the arguments of the last call. -/
theorem C5_debounce_collapses (wait t0 : Nat) (a0 : α)
    (cs : List (Nat × α)) (h : closeChain wait t0 cs) :
    debounceInvocations wait ((t0, a0) :: cs)
      = [((cs.getLastD (t0, a0)).1 + wait, (cs.getLastD (t0, a0)).2)] := by
  have h1 : debounceCalls wait (none : Option (Nat × α)) ((t0, a0) :: cs)
      = debounceCalls wait (some (t0 + wait, a0)) cs := rfl
  simp only [debounceInvocations, h1, debounceCalls_burst wait t0 a0 cs h]
  simp

/-- Witness for Claim C5, the spec's own scenario: a 500 ms debounce
triggered at t = 0, 100, 200, 300 with payloads A, B, C, D performs
exactly one invocation, at t = 800 with payload D. -/
theorem C5_witness :
    closeChain 500 0 [(100, "B"), (200, "C"), (300, "D")]
    ∧ debounceInvocations 500
        [(0, "A"), (100, "B"), (200, "C"), (300, "D")] = [(800, "D")] :=
  ⟨by simp [closeChain], by
    have := C5_debounce_collapses 500 0 "A"
      [(100, "B"), (200, "C"), (300, "D")] (by simp [closeChain])
    simpa using this⟩

/-- Claim C7 is false on the code: with a 500 ms throttle, calls at
t = 1000 (A), 1100 (B), 1200 (C) produce the leading invocation with A
and one trailing invocation at t = 1500 — but the trailing invocation
carries B, the arguments captured by the call that armed the trailing
timer, not C, the arguments of the most recent call in the window: the
final update is lost. -/
theorem C7_counterexample :
    throttleInvocations 500 [(1000, "A"), (1100, "B"), (1200, "C")]
      = [(1000, "A"), (1500, "B")]
    ∧ ([(1000, "A"), (1500, "B")] : List (Nat × String))
      ≠ [(1000, "A"), (1500, "C")] := by
  constructor
  · rfl
  · decide

/-- Claim C7 amended: the first call in an interval window fires
immediately (leading edge), and when further calls arrive before the
interval elapses, exactly one trailing invocation fires once the
interval has elapsed — but it carries the arguments of the FIRST call
after the leading edge (the call that armed the trailing timer); every
later call in that window is dropped, so the final update can be
lost. -/
theorem C7_throttle_leading_and_first_trailing (wait t0 t1 : Nat)
    (a0 a1 : α) (rest : List (Nat × α))
    (h0 : wait ≤ t0) (h1 : t0 ≤ t1) (h2 : t1 < t0 + wait)
    (hrest : ∀ c ∈ rest, c.1 < t0 + wait) :
    throttleInvocations wait ((t0, a0) :: (t1, a1) :: rest)
      = [(t0, a0), (t0 + wait, a1)] := by
  have hw : 0 < wait := by omega
  have hc0 : throttleCall wait ⟨0, none⟩ t0 a0
      = (⟨t0, none⟩, [(t0, a0)]) := by
    simp only [throttleCall, throttleFlush]
    rw [if_pos (by omega : wait ≤ t0 - (0 : Nat))]
    simp
  have hdue : t1 + (wait - (t1 - t0)) = t0 + wait := by omega
  have hc1 : throttleCall wait ⟨t0, none⟩ t1 a1
      = (⟨t0, some (t0 + wait, a1)⟩, []) := by
    simp only [throttleCall, throttleFlush]
    rw [if_neg (by omega : ¬ wait ≤ t1 - t0)]
    simp [hdue]
  simp only [throttleInvocations, throttleRun, hc0, hc1,
    throttleRun_drop wait t0 a1 rest hw hrest]
  simp

/-- Witness for the amended Claim C7: a 500 ms throttle called at
t = 1000 (A), 1100 (B), 1200 (C) fires the leading invocation with A at
t = 1000 and one trailing invocation at t = 1500 with B, the first
post-leading call's arguments. -/
theorem C7_witness :
    (500 ≤ 1000 ∧ 1000 ≤ 1100 ∧ 1100 < 1000 + 500
      ∧ ∀ c ∈ [((1200 : Nat), "C")], c.1 < 1000 + 500)
    ∧ throttleInvocations 500 [(1000, "A"), (1100, "B"), (1200, "C")]
      = [(1000, "A"), (1500, "B")] :=
  ⟨⟨by decide, by decide, by decide, by decide⟩,
    C7_throttle_leading_and_first_trailing 500 1000 1100 "A" "B"
      [(1200, "C")] (by decide) (by decide) (by decide) (by decide)⟩

/-! ## Claims about the Keyed Async Request Coordinator -/

/-- Claim C1: with keys A then B set in that order on a `PageWithCleanup`
coordinator, under both relative completion orders of the two fetches
(including A's fetch resolving after B's), exactly one result is ever
committed to visible state and it is B's, never A's; moreover, on every
event trace whatsoever, each commit's key equals the request key active
at the moment of commit, so a result for a superseded key is never
committed. -/
theorem C1_no_stale_overwrite (A B : String) (hAB : A ≠ B) :
    ((runEvs (mountWith A) [.setKey B, .resolve 1, .resolve 2]).commits
        = [⟨2, B, B⟩]
      ∧ (runEvs (mountWith A) [.setKey B, .resolve 1, .resolve 2]).data
        = issuesData B)
    ∧ ((runEvs (mountWith A) [.setKey B, .resolve 2, .resolve 1]).commits
        = [⟨2, B, B⟩]
      ∧ (runEvs (mountWith A) [.setKey B, .resolve 2, .resolve 1]).data
        = issuesData B)
    ∧ (∀ evs : List Ev, ∀ c ∈ (runEvs (mountWith A) evs).commits,
        c.reqKey = c.activeKey) := by
  have hBA : (B == A) = false := beq_eq_false_iff_ne.mpr (Ne.symm hAB)
  refine ⟨⟨?_, ?_⟩, ⟨?_, ?_⟩, fun evs c hc =>
    (cleanupInv_reachable A evs).2.2.2 c hc⟩
  all_goals
    simp [runEvs, applyEv, mountWith, findReq, removeReq, deactivate, hBA]

/-- Witness for Claim C1 at the concrete keys A = "1", B = "2". -/
theorem C1_witness :
    ("1" : String) ≠ "2"
    ∧ (((runEvs (mountWith "1") [.setKey "2", .resolve 1, .resolve 2]).commits
          = [⟨2, "2", "2"⟩]
        ∧ (runEvs (mountWith "1")
            [.setKey "2", .resolve 1, .resolve 2]).data = issuesData "2")
      ∧ ((runEvs (mountWith "1") [.setKey "2", .resolve 2, .resolve 1]).commits
          = [⟨2, "2", "2"⟩]
        ∧ (runEvs (mountWith "1")
            [.setKey "2", .resolve 2, .resolve 1]).data = issuesData "2")
      ∧ (∀ evs : List Ev, ∀ c ∈ (runEvs (mountWith "1") evs).commits,
          c.reqKey = c.activeKey)) :=
  ⟨by decide, C1_no_stale_overwrite "1" "2" (by decide)⟩

/-- Claim C2: when the fetch of request `r` resolves on a reachable
`PageWithCleanup` state, the request's per-request liveness marker equals
the test "its sequence number is the coordinator's current one and the
coordinator is still mounted"; the result commits to visible state
(data set, loading cleared, one commit recorded) exactly when that
marker is live, and otherwise the request is silently superseded: data,
loading, the commit log and the fetch counter are all unchanged — no
error, no retry, no visible side effect. -/
theorem C2_commit_iff_current_seq (s : CleanupState) (hinv : CleanupInv s)
    (q : Nat) (r : Req) (hr : findReq s.pending q = some r) :
    r.isActive = (decide (r.seq = s.seq) && s.mounted)
    ∧ (r.isActive = true →
        (applyEv s (.resolve q)).data = issuesData r.key
        ∧ (applyEv s (.resolve q)).loading = false
        ∧ (applyEv s (.resolve q)).commits
          = s.commits ++ [⟨r.seq, r.key, s.key⟩]
        ∧ (applyEv s (.resolve q)).fetchCount = s.fetchCount)
    ∧ (r.isActive = false →
        (applyEv s (.resolve q)).data = s.data
        ∧ (applyEv s (.resolve q)).loading = s.loading
        ∧ (applyEv s (.resolve q)).commits = s.commits
        ∧ (applyEv s (.resolve q)).fetchCount = s.fetchCount) := by
  refine ⟨hinv.1 r (List.mem_of_find?_eq_some hr), ?_, ?_⟩
  · intro hact
    simp only [applyEv, hr]
    rw [if_pos hact]
    exact ⟨rfl, rfl, rfl, rfl⟩
  · intro hact
    simp only [applyEv, hr]
    rw [if_neg (by simp [hact])]
    exact ⟨rfl, rfl, rfl, rfl⟩

/-- Witness for Claim C2: on the reachable state obtained by mounting
with key "1" and then setting key "2", the request of run 1 (key "1") is
superseded — its marker is dead and its resolution changes nothing. -/
theorem C2_witness :
    CleanupInv (runEvs (mountWith "1") [.setKey "2"])
    ∧ findReq (runEvs (mountWith "1") [.setKey "2"]).pending 1
      = some ⟨1, "1", false⟩
    ∧ ((⟨1, "1", false⟩ : Req).isActive
        = (decide ((⟨1, "1", false⟩ : Req).seq
            = (runEvs (mountWith "1") [.setKey "2"]).seq)
          && (runEvs (mountWith "1") [.setKey "2"]).mounted)
      ∧ ((⟨1, "1", false⟩ : Req).isActive = true →
          (applyEv (runEvs (mountWith "1") [.setKey "2"]) (.resolve 1)).data
            = issuesData (⟨1, "1", false⟩ : Req).key
          ∧ (applyEv (runEvs (mountWith "1") [.setKey "2"])
              (.resolve 1)).loading = false
          ∧ (applyEv (runEvs (mountWith "1") [.setKey "2"])
              (.resolve 1)).commits
            = (runEvs (mountWith "1") [.setKey "2"]).commits
              ++ [⟨1, "1", (runEvs (mountWith "1") [.setKey "2"]).key⟩]
          ∧ (applyEv (runEvs (mountWith "1") [.setKey "2"])
              (.resolve 1)).fetchCount
            = (runEvs (mountWith "1") [.setKey "2"]).fetchCount)
      ∧ ((⟨1, "1", false⟩ : Req).isActive = false →
          (applyEv (runEvs (mountWith "1") [.setKey "2"]) (.resolve 1)).data
            = (runEvs (mountWith "1") [.setKey "2"]).data
          ∧ (applyEv (runEvs (mountWith "1") [.setKey "2"])
              (.resolve 1)).loading
            = (runEvs (mountWith "1") [.setKey "2"]).loading
          ∧ (applyEv (runEvs (mountWith "1") [.setKey "2"])
              (.resolve 1)).commits
            = (runEvs (mountWith "1") [.setKey "2"]).commits
          ∧ (applyEv (runEvs (mountWith "1") [.setKey "2"])
              (.resolve 1)).fetchCount
            = (runEvs (mountWith "1") [.setKey "2"]).fetchCount)) :=
  ⟨cleanupInv_reachable "1" [.setKey "2"], by decide,
    C2_commit_iff_current_seq (runEvs (mountWith "1") [.setKey "2"])
      (cleanupInv_reachable "1" [.setKey "2"]) 1 ⟨1, "1", false⟩
      (by decide)⟩

/-- Claim C6: tearing the coordinator down while fetches are in flight
prevents any commit after teardown, in both implemented strategies: on a
torn-down `PageWithCleanup` (liveness flags all dead) and on a torn-down
reachable `PageWithAbort` (every controller aborted, so each late
settlement is an absorbed `AbortError`), no subsequent events change
`data`, `loading` or the commit log — the late result is discarded
exactly as a superseded one. -/
theorem C6_teardown_no_late_commit (k k2 : String) (evs tail : List Ev)
    (aevs atail : List AEv) :
    ((runEvs (applyEv (runEvs (mountWith k) evs) .teardown) tail).data
        = (applyEv (runEvs (mountWith k) evs) .teardown).data
      ∧ (runEvs (applyEv (runEvs (mountWith k) evs) .teardown) tail).loading
        = (applyEv (runEvs (mountWith k) evs) .teardown).loading
      ∧ (runEvs (applyEv (runEvs (mountWith k) evs) .teardown) tail).commits
        = (applyEv (runEvs (mountWith k) evs) .teardown).commits)
    ∧ ((runA (applyA (runA (mountA k2) aevs) .teardown) atail).data
        = (applyA (runA (mountA k2) aevs) .teardown).data
      ∧ (runA (applyA (runA (mountA k2) aevs) .teardown) atail).loading
        = (applyA (runA (mountA k2) aevs) .teardown).loading
      ∧ (runA (applyA (runA (mountA k2) aevs) .teardown) atail).commits
        = (applyA (runA (mountA k2) aevs) .teardown).commits) :=
  ⟨cleanupDead_run (applyEv (runEvs (mountWith k) evs) .teardown) tail
      (cleanupDead_teardown (runEvs (mountWith k) evs)),
    abortDead_run (applyA (runA (mountA k2) aevs) .teardown) atail
      (abortDead_teardown (runA (mountA k2) aevs)
        (abortInv_reachable k2 aevs))⟩

/-- Claim C8: setting the same key twice in a row on a mounted
`PageWithCleanup` issues exactly one fetch; the effect's dependency list
`[id]` makes the second, identical `setKey` a complete no-op — no
duplicate fetch, no sequence increment, no state transition of any
kind. -/
theorem C8_setKey_idempotent (s : CleanupState) (k : String)
    (hm : s.mounted = true) (hk : k ≠ s.key) :
    applyEv (applyEv s (.setKey k)) (.setKey k) = applyEv s (.setKey k)
    ∧ (applyEv s (.setKey k)).fetchCount = s.fetchCount + 1
    ∧ (applyEv (applyEv s (.setKey k)) (.setKey k)).fetchCount
      = s.fetchCount + 1
    ∧ (applyEv (applyEv s (.setKey k)) (.setKey k)).seq
      = (applyEv s (.setKey k)).seq := by
  have hkk : (k == s.key) = false := beq_eq_false_iff_ne.mpr hk
  have hs1 : applyEv s (.setKey k)
      = ⟨k, s.seq + 1, s.data, true, true,
          ⟨s.seq + 1, k, true⟩ :: deactivate s.pending, s.commits,
          s.fetchCount + 1⟩ := by
    simp [applyEv, hm, hkk]
  have hs2 : applyEv (applyEv s (.setKey k)) (.setKey k)
      = applyEv s (.setKey k) := by
    rw [hs1]
    simp [applyEv]
  refine ⟨hs2, by rw [hs1], by rw [hs2, hs1], by rw [hs2]⟩

/-- Witness for Claim C8 on the freshly mounted state with key "1" and
the new key "2". -/
theorem C8_witness :
    (mountWith "1").mounted = true
    ∧ "2" ≠ (mountWith "1").key
    ∧ (applyEv (applyEv (mountWith "1") (.setKey "2")) (.setKey "2")
        = applyEv (mountWith "1") (.setKey "2")
      ∧ (applyEv (mountWith "1") (.setKey "2")).fetchCount
        = (mountWith "1").fetchCount + 1
      ∧ (applyEv (applyEv (mountWith "1") (.setKey "2"))
          (.setKey "2")).fetchCount = (mountWith "1").fetchCount + 1
      ∧ (applyEv (applyEv (mountWith "1") (.setKey "2"))
          (.setKey "2")).seq = (applyEv (mountWith "1") (.setKey "2")).seq) :=
  ⟨rfl, by decide,
    C8_setKey_idempotent (mountWith "1") "2" rfl (by decide)⟩

/-- Claim C9 is false on the code: in `PageWithAbort` a genuine fetch
failure (here a "TypeError" rejection of the active request, right after
mount with key "1") does NOT transition the coordinator to a Failed
state surfaced to the caller — the caller-visible state is bit-for-bit
unchanged (`data` still `null`, `loading` still `true`, no commit); the
failure's only trace is the `console.error` report. -/
theorem C9_counterexample :
    (applyA (mountA "1") (.fail 1 "TypeError")).data = (mountA "1").data
    ∧ (applyA (mountA "1") (.fail 1 "TypeError")).loading
      = (mountA "1").loading
    ∧ (applyA (mountA "1") (.fail 1 "TypeError")).loading = true
    ∧ (applyA (mountA "1") (.fail 1 "TypeError")).commits = []
    ∧ (applyA (mountA "1") (.fail 1 "TypeError")).errors
      = ["Fetch error: TypeError"] := by
  decide

/-- Claim C9 amended: in `PageWithAbort`, a genuine fetch failure (a
rejection not named `AbortError`, on a non-aborted request) is reported
only through `console.error` and causes no state transition — the
coordinator has no Failed state, and `data`, `loading` and the commit
log are unchanged, so no failure reaches the caller-visible state; a
cancellation (an `AbortError` rejection, or the settlement of an aborted
request) is absorbed completely silently: no report and no state change
either. -/
theorem C9_failure_console_only (s : AbortState) (q : Nat) (r : AReq)
    (hr : findAReq s.pending q = some r) (err : String) :
    ((r.aborted = false ∧ err ≠ "AbortError") →
      (applyA s (.fail q err)).errors
        = s.errors ++ ["Fetch error: " ++ err]
      ∧ (applyA s (.fail q err)).data = s.data
      ∧ (applyA s (.fail q err)).loading = s.loading
      ∧ (applyA s (.fail q err)).commits = s.commits)
    ∧ ((r.aborted = true ∨ err = "AbortError") →
      (applyA s (.fail q err)).errors = s.errors
      ∧ (applyA s (.fail q err)).data = s.data
      ∧ (applyA s (.fail q err)).loading = s.loading
      ∧ (applyA s (.fail q err)).commits = s.commits)
    ∧ (r.aborted = true →
      (applyA s (.resolve q)).errors = s.errors
      ∧ (applyA s (.resolve q)).data = s.data
      ∧ (applyA s (.resolve q)).loading = s.loading
      ∧ (applyA s (.resolve q)).commits = s.commits) := by
  refine ⟨?_, ?_, ?_⟩
  · rintro ⟨hab, herr⟩
    have hcond : (r.aborted || err == "AbortError") = false := by
      simp [hab, herr]
    simp only [applyA, hr]
    rw [if_neg (by simp [hcond])]
    exact ⟨rfl, rfl, rfl, rfl⟩
  · intro hor
    have hcond : (r.aborted || err == "AbortError") = true := by
      rcases hor with h | h <;> simp [h]
    simp only [applyA, hr]
    rw [if_pos hcond]
    exact ⟨rfl, rfl, rfl, rfl⟩
  · intro hab
    simp only [applyA, hr]
    rw [if_pos hab]
    exact ⟨rfl, rfl, rfl, rfl⟩

/-- Witness for the amended Claim C9: on the freshly mounted
`PageWithAbort` with key "1", a genuine "TypeError" rejection of request
1 is reported on the console only, while abort-path settlements change
nothing. -/
theorem C9_witness :
    findAReq (mountA "1").pending 1 = some ⟨1, "1", false⟩
    ∧ ((((⟨1, "1", false⟩ : AReq).aborted = false ∧ "TypeError" ≠ "AbortError") →
        (applyA (mountA "1") (.fail 1 "TypeError")).errors
          = (mountA "1").errors ++ ["Fetch error: " ++ "TypeError"]
        ∧ (applyA (mountA "1") (.fail 1 "TypeError")).data = (mountA "1").data
        ∧ (applyA (mountA "1") (.fail 1 "TypeError")).loading
          = (mountA "1").loading
        ∧ (applyA (mountA "1") (.fail 1 "TypeError")).commits
          = (mountA "1").commits)
      ∧ (((⟨1, "1", false⟩ : AReq).aborted = true ∨ "TypeError" = "AbortError") →
        (applyA (mountA "1") (.fail 1 "TypeError")).errors = (mountA "1").errors
        ∧ (applyA (mountA "1") (.fail 1 "TypeError")).data = (mountA "1").data
        ∧ (applyA (mountA "1") (.fail 1 "TypeError")).loading
          = (mountA "1").loading
        ∧ (applyA (mountA "1") (.fail 1 "TypeError")).commits
          = (mountA "1").commits)
      ∧ ((⟨1, "1", false⟩ : AReq).aborted = true →
        (applyA (mountA "1") (.resolve 1)).errors = (mountA "1").errors
        ∧ (applyA (mountA "1") (.resolve 1)).data = (mountA "1").data
        ∧ (applyA (mountA "1") (.resolve 1)).loading = (mountA "1").loading
        ∧ (applyA (mountA "1") (.resolve 1)).commits = (mountA "1").commits)) :=
  ⟨by decide,
    C9_failure_console_only (mountA "1") 1 ⟨1, "1", false⟩ (by decide)
      "TypeError"⟩
